import Mathlib

/-!
Shallow embedding of the ContactSim engine (`src/contactsim/contactsim.py`).

Python floats are modelled as real numbers.  The two stochastic sources the
engine consumes — `random.random()` (uniform draws) and `stats.norm.rvs`
(normal duration samples) — are modelled as oracle streams `uni`, `gauss`
carried in the simulation state together with cursor indices, so that the
order and number of draws the code makes is captured exactly.  The external
library function `scipy.stats.norm.cdf` is modelled as an uninterpreted
function `normCDF` carried in the state: the engine only ever compares its
value, never inspects it.
-/

open Real

namespace ContactSim

/-- Python's `int(x)` conversion on a float: truncation toward zero. -/
noncomputable def pyInt (x : ℝ) : ℤ := if 0 ≤ x then ⌊x⌋ else ⌈x⌉

/-- Python's `sorted` on a list of identifiers (a stable comparison sort). -/
def pySorted (l : List ℕ) : List ℕ := l.insertionSort (· ≤ ·)

/-- The `Actor` class: a person/device moving in the environment
(`contactsim.py` lines 17–110).  `xComponent`/`yComponent` are the cached
per-second displacement components that `setVelocity` computes; the Python
constructor leaves them unset until `setVelocity` is called, so the
structure simply carries their current values. -/
structure Actor where
  id : ℕ
  powerTx : ℝ
  gainTx : ℝ
  gainRx : ℝ
  x : ℝ
  y : ℝ
  angle : ℝ
  speed : ℝ
  xComponent : ℝ
  yComponent : ℝ
  included : Bool
  deviceModel : String

/-- The `Actor.setPosition` (lines 52–61). -/
def Actor.setPosition (a : Actor) (newX newY : ℝ) : Actor :=
  { a with x := newX, y := newY }

/-- The `Actor.setVelocity` (lines 63–75): stores angle and speed and caches
`xComponent = cos(angle)·speed`, `yComponent = sin(angle)·speed`. -/
noncomputable def Actor.setVelocity (a : Actor) (newAngleRadians newSpeed : ℝ) : Actor :=
  { a with
    angle := newAngleRadians
    speed := newSpeed
    xComponent := Real.cos newAngleRadians * newSpeed
    yComponent := Real.sin newAngleRadians * newSpeed }

/-- The `Actor.updatePosition` (lines 77–88): north is 0 radians, so the cached
`xComponent` feeds the y axis and `yComponent` feeds the x axis. -/
noncomputable def Actor.updatePosition (a : Actor) (secondsElapsed : ℝ) : Actor :=
  { a with
    x := a.x + a.yComponent * secondsElapsed
    y := a.y + a.xComponent * secondsElapsed }

/-- The `Actor.powerReceiver` (lines 92–110): Friis free-space received power. -/
noncomputable def Actor.powerReceiver (a : Actor) (wavelength distance
    otherPowerTransmitter otherGainTransmitter : ℝ) : ℝ :=
  let operand := wavelength / (4 * Real.pi * distance)
  a.gainRx + otherPowerTransmitter + otherGainTransmitter + 20 * Real.logb 10 operand

/-- The `Meeting` class (lines 115–163).  The Python attribute `end` is a Lean
keyword, hence the field name `endT`. -/
structure Meeting where
  start : ℝ
  endT : ℝ
  participants : List ℕ

/-- The `Meeting.stillMeeting` (lines 132–142). -/
def Meeting.stillMeeting (m : Meeting) (tickNow : ℝ) : Prop :=
  tickNow ≥ m.start ∧ tickNow ≤ m.endT

noncomputable instance (m : Meeting) (t : ℝ) : Decidable (m.stillMeeting t) :=
  inferInstanceAs (Decidable (_ ∧ _))

/-- The `Meeting.hasParticipant` (lines 144–154). -/
def Meeting.hasParticipant (m : Meeting) (participantId : ℕ) : Prop :=
  participantId ∈ m.participants

instance (m : Meeting) (i : ℕ) : Decidable (m.hasParticipant i) :=
  inferInstanceAs (Decidable (_ ∈ _))

/-- The `Meeting.duration` (lines 156–163). -/
def Meeting.duration (m : Meeting) : ℝ := m.endT - m.start

/-- One entry of `Simulation.readings`: the tuple
`(time, idReceiver, idTransmitter, powerReceiver, rxModel, txModel)`
appended at line 348. -/
structure Reading where
  time : ℝ
  idRx : ℕ
  idTx : ℕ
  power : ℝ
  modelRx : String
  modelTx : String

/-- The `Simulation` state (lines 168–227) plus the modelled stochastic
oracles (`uni`/`uniIdx` for `random.random()`, `gauss`/`gaussIdx` for
`stats.norm.rvs`, `normCDF` for `scipy.stats.norm.cdf`). -/
structure Simulation where
  actors : List Actor
  radioFrequency : ℝ
  maxRange : ℝ
  wavelength : ℝ
  time : ℝ
  readings : List Reading
  minX : ℝ
  minY : ℝ
  maxX : ℝ
  maxY : ℝ
  meetings : List Meeting
  meetingDurationMean : ℝ
  meetingDurationSd : ℝ
  meetingDistanceMean : ℝ
  meetingDistanceSd : ℝ
  meetingChance : ℝ
  meetingMaxRange : ℝ
  uni : ℕ → ℝ
  uniIdx : ℕ
  gauss : ℕ → ℝ
  gaussIdx : ℕ
  normCDF : ℝ → ℝ → ℝ → ℝ

/-- Speed-of-light constant used by `Simulation.__init__` (line 211). -/
def lightSpeed : ℝ := 2999100

/-- The `Simulation.__init__` (lines 174–227): wavelength is derived once as
`c / frequency`, the clock starts at 0, and the reading and meeting logs
start empty. -/
noncomputable def mkSimulation (actors : List Actor) (frequency maxEffectRange
    minX maxX minY maxY meetingDurationMean meetingDurationSd meetingDistanceMean
    meetingDistanceSd meetingChance meetingMaxRange : ℝ)
    (uni gauss : ℕ → ℝ) (normCDF : ℝ → ℝ → ℝ → ℝ) : Simulation :=
  { actors := actors
    radioFrequency := frequency
    maxRange := maxEffectRange
    wavelength := lightSpeed / frequency
    time := 0
    readings := []
    minX := minX
    minY := minY
    maxX := maxX
    maxY := maxY
    meetings := []
    meetingDurationMean := meetingDurationMean
    meetingDurationSd := meetingDurationSd
    meetingDistanceMean := meetingDistanceMean
    meetingDistanceSd := meetingDistanceSd
    meetingChance := meetingChance
    meetingMaxRange := meetingMaxRange
    uni := uni
    uniIdx := 0
    gauss := gauss
    gaussIdx := 0
    normCDF := normCDF }

/-- The `Simulation.addActor` (lines 229–236). -/
def Simulation.addActor (s : Simulation) (newActor : Actor) : Simulation :=
  { s with actors := s.actors ++ [newActor] }

/-- The `Simulation.isInMeeting` (lines 238–254): linear scan for any meeting
that has the participant and is still in progress. -/
def Simulation.isInMeeting (s : Simulation) (participantId : ℕ) (tickNow : ℝ) : Prop :=
  ∃ m ∈ s.meetings, m.hasParticipant participantId ∧ m.stillMeeting tickNow

noncomputable instance (s : Simulation) (i : ℕ) (t : ℝ) : Decidable (s.isInMeeting i t) :=
  inferInstanceAs (Decidable (∃ m ∈ s.meetings, _ ∧ _))

/-- The `Simulation.getMeeting` (lines 256–269): first meeting whose sorted
participant list equals the sorted query list, else none. -/
def Simulation.getMeeting (s : Simulation) (participantIds : List ℕ) : Option Meeting :=
  s.meetings.find? fun m => pySorted m.participants = pySorted participantIds

/-- Movement pass body of `Simulation.step` for one actor (lines 282–293):
returns the updated actor together with whether it is retained in
`remainingActors`.  `s` is the state with the clock already advanced. -/
noncomputable def moveActor (s : Simulation) (secondsElapsed : ℝ) (a : Actor) :
    Actor × Bool :=
  if a.included then
    if s.isInMeeting a.id s.time then (a, true)
    else
      if (a.updatePosition secondsElapsed).x < s.minX ∨
          (a.updatePosition secondsElapsed).x > s.maxX ∨
          (a.updatePosition secondsElapsed).y < s.minY ∨
          (a.updatePosition secondsElapsed).y > s.maxY then
        ({ a.updatePosition secondsElapsed with included := false }, false)
      else (a.updatePosition secondsElapsed, true)
  else (a, false)

/-- Mutual distance of the pair, line 306. -/
noncomputable def pairDist (actorRx actorTx : Actor) : ℝ :=
  Real.sqrt ((actorRx.x - actorTx.x) ^ 2 + (actorRx.y - actorTx.y) ^ 2)

/-- The Meeting built at lines 324–327: end tick is the Python-`int` of
`time + rvs-sample`, clamped up to `time + 1` when smaller. -/
noncomputable def newMeeting (s : Simulation) (actorRx actorTx : Actor) : Meeting :=
  ⟨s.time,
    if ((pyInt (s.time + s.gauss s.gaussIdx) : ℤ) : ℝ) < s.time + 1 then s.time + 1
    else ((pyInt (s.time + s.gauss s.gaussIdx) : ℤ) : ℝ),
    [actorRx.id, actorTx.id]⟩

/-- Meeting-formation part of the pair body (lines 313–331).  A uniform
draw is consumed exactly when the guards reach line 320; a normal sample is
consumed exactly when a meeting forms (line 324). -/
noncomputable def meetingPhase (s : Simulation) (actorRx actorTx : Actor)
    (range : ℝ) : Simulation :=
  if s.meetingDurationMean > 0 ∧ range ≤ s.meetingMaxRange then
    match s.getMeeting [actorRx.id, actorTx.id] with
    | some _ => s
    | none =>
      if range ≤ s.meetingDistanceMean + 2 * s.meetingDistanceSd then
        if s.uni s.uniIdx * s.meetingChance >
            s.normCDF range s.meetingDistanceMean s.meetingDistanceSd then
          { s with
            uniIdx := s.uniIdx + 1
            gaussIdx := s.gaussIdx + 1
            meetings := s.meetings ++ [newMeeting s actorRx actorTx] }
        else { s with uniIdx := s.uniIdx + 1 }
      else s
  else s

/-- The Reading tuple appended at line 348. -/
noncomputable def newReading (s : Simulation) (actorRx actorTx : Actor)
    (range : ℝ) : Reading :=
  ⟨s.time, actorRx.id, actorTx.id,
    actorRx.powerReceiver s.wavelength range actorTx.powerTx actorTx.gainTx,
    actorRx.deviceModel, actorTx.deviceModel⟩

/-- Reading-capture part of the pair body (lines 333–348). -/
noncomputable def readingPhase (s : Simulation) (actorRx actorTx : Actor)
    (range : ℝ) : Simulation :=
  if range ≤ s.maxRange ∧ range ≥ s.wavelength then
    { s with readings := s.readings ++ [newReading s actorRx actorTx range] }
  else s

/-- Full body of the nested pair loop (lines 304–348), guarded by the
identifier check of line 304. -/
noncomputable def pairVisit (s : Simulation) (actorRx actorTx : Actor) : Simulation :=
  if actorRx.id ≠ actorTx.id then
    readingPhase (meetingPhase s actorRx actorTx (pairDist actorRx actorTx))
      actorRx actorTx (pairDist actorRx actorTx)
  else s

/-- Inner loop of line 303.  `enumerate(self.actors, start=rxIdx+1)` only
offsets the enumeration counter, so the loop runs over the whole actor
list `l`. -/
noncomputable def innerLoop (l : List Actor) (actorRx : Actor) (s : Simulation) :
    Simulation :=
  l.foldl (fun acc actorTx => pairVisit acc actorRx actorTx) s

/-- Outer loop of line 302 over the same fixed actor list. -/
noncomputable def outerLoop (l : List Actor) (s : Simulation) : Simulation :=
  l.foldl (fun acc actorRx => innerLoop l actorRx acc) s

/-- The pairwise interaction pass of `Simulation.step` (lines 301–348);
the loops iterate over `self.actors`, which the pass never modifies. -/
noncomputable def interactionPass (s : Simulation) : Simulation :=
  outerLoop s.actors s

/-- Movement pass of `Simulation.step` (lines 280–299): the live-actor
list is replaced by the retained actors (`self.actors = remainingActors`). -/
noncomputable def movementPass (s : Simulation) (secondsElapsed : ℝ) : Simulation :=
  { s with
    actors := ((s.actors.map (moveActor s secondsElapsed)).filter
      (fun p => p.2)).map (fun p => p.1) }

/-- The `Simulation.step` (lines 271–348): advance the clock, run the movement
pass, then run the pairwise interaction pass. -/
noncomputable def Simulation.step (s : Simulation) (secondsElapsed : ℝ) : Simulation :=
  interactionPass
    (movementPass { s with time := s.time + secondsElapsed } secondsElapsed)

/-- The identifiers of a list of actors, in order. -/
def actorIds (l : List Actor) : List ℕ := l.map Actor.id

/-- The "meet once" invariant: no two meetings in the log have the same
unordered participant pair (compared, as the code does, through `sorted`). -/
def MeetOnce (s : Simulation) : Prop :=
  s.meetings.Pairwise fun m1 m2 => pySorted m1.participants ≠ pySorted m2.participants

/-- Engine states reachable from a freshly constructed simulation by any
sequence of `step` and `addActor` calls. -/
inductive Reachable : Simulation → Prop where
  | init : ∀ actors frequency maxEffectRange minX maxX minY maxY
      meetingDurationMean meetingDurationSd meetingDistanceMean meetingDistanceSd
      meetingChance meetingMaxRange uni gauss normCDF,
      Reachable (mkSimulation actors frequency maxEffectRange minX maxX minY maxY
        meetingDurationMean meetingDurationSd meetingDistanceMean meetingDistanceSd
        meetingChance meetingMaxRange uni gauss normCDF)
  | step : ∀ {s : Simulation} (dt : ℝ), Reachable s → Reachable (s.step dt)
  | addActor : ∀ {s : Simulation} (a : Actor), Reachable s → Reachable (s.addActor a)

/-! ### Concrete inputs used to exercise the definitions -/

/-- A concrete stationary actor at the origin, identifier 1. -/
def demoActorA : Actor :=
  ⟨1, 13, 1.5, 1.5, 0, 0, 0, 0, 0, 0, true, "m1"⟩

/-- A concrete stationary actor at (0, 3), identifier 2. -/
def demoActorB : Actor :=
  ⟨2, 13, 1.5, 1.5, 0, 3, 0, 0, 0, 0, true, "m2"⟩

/-- A concrete stationary actor at the origin, identifier 2. -/
def demoActorC : Actor :=
  ⟨2, 13, 1.5, 1.5, 0, 0, 0, 0, 0, 0, true, "m2"⟩

/-- A concrete actor at (199, 0) with cached velocity components moving it
5 m/s toward larger x, identifier 3. -/
def demoActorD : Actor :=
  ⟨3, 13, 1.5, 1.5, 199, 0, 0, 0, 0, 5, true, "m3"⟩

/-- A concrete simulation with the two demo actors at distance 3,
wavelength 1, meetings disabled. -/
noncomputable def demoSim : Simulation :=
  mkSimulation [demoActorA, demoActorB] 2999100 15 (-200) 200 (-200) 200
    0 0 0 0 0 3 (fun _ => 0) (fun _ => 0) (fun _ _ _ => 0)

/-- A concrete simulation with meetings enabled and the two demo actors at
distance 0: uniform draws are all 1/2, duration samples all 300, and the
modelled cdf is constantly 0. -/
noncomputable def demoMeetSim : Simulation :=
  mkSimulation [demoActorA, demoActorC] 2999100 15 (-200) 200 (-200) 200
    300 0 1.5 0.3 1 3 (fun _ => 1/2) (fun _ => 300) (fun _ _ _ => 0)

/-- The meeting-enabled demo simulation with one already-formed meeting of
actors 1 and 2 spanning ticks 0 to 10. -/
noncomputable def meetSimW : Simulation :=
  { demoMeetSim with meetings := [⟨0, 10, [1, 2]⟩] }

/-- A concrete simulation holding only the moving actor 3, meetings
disabled. -/
noncomputable def demoOutSim : Simulation :=
  mkSimulation [demoActorD] 2999100 15 (-200) 200 (-200) 200
    0 0 0 0 0 3 (fun _ => 0) (fun _ => 0) (fun _ _ _ => 0)

/-! ### Structural lemmas about the pieces of `step` -/

theorem Actor.updatePosition_id (a : Actor) (t : ℝ) : (a.updatePosition t).id = a.id := rfl

theorem moveActor_fst_id (s : Simulation) (dt : ℝ) (a : Actor) :
    (moveActor s dt a).1.id = a.id := by
  unfold moveActor
  split
  · split
    · rfl
    · split <;> rfl
  · rfl

theorem readingPhase_cases (s : Simulation) (rx tx : Actor) (range : ℝ) :
    readingPhase s rx tx range = s ∨
      readingPhase s rx tx range =
        { s with readings := s.readings ++ [newReading s rx tx range] } := by
  unfold readingPhase
  split
  · exact Or.inr rfl
  · exact Or.inl rfl

theorem meetingPhase_cases (s : Simulation) (rx tx : Actor) (range : ℝ) :
    meetingPhase s rx tx range = s ∨
      meetingPhase s rx tx range = { s with uniIdx := s.uniIdx + 1 } ∨
      meetingPhase s rx tx range =
        { s with uniIdx := s.uniIdx + 1, gaussIdx := s.gaussIdx + 1,
                 meetings := s.meetings ++ [newMeeting s rx tx] } := by
  unfold meetingPhase
  split
  · split
    · exact Or.inl rfl
    · split
      · split
        · exact Or.inr (Or.inr rfl)
        · exact Or.inr (Or.inl rfl)
      · exact Or.inl rfl
  · exact Or.inl rfl

theorem pairVisit_shape (s : Simulation) (rx tx : Actor) :
    ∃ ms rs u g, pairVisit s rx tx =
        { s with meetings := s.meetings ++ ms, readings := s.readings ++ rs,
                 uniIdx := u, gaussIdx := g } ∧
      (∀ r ∈ rs, r.idRx = rx.id ∧ r.idTx = tx.id) ∧
      (∀ m ∈ ms, m.participants = [rx.id, tx.id]) := by
  unfold pairVisit
  split
  · rcases readingPhase_cases (meetingPhase s rx tx (pairDist rx tx)) rx tx
      (pairDist rx tx) with hr | hr <;>
      rcases meetingPhase_cases s rx tx (pairDist rx tx) with hm | hm | hm <;>
      rw [hr, hm]
    · exact ⟨[], [], s.uniIdx, s.gaussIdx, by simp, by simp, by simp⟩
    · exact ⟨[], [], s.uniIdx + 1, s.gaussIdx, by simp, by simp, by simp⟩
    · exact ⟨[newMeeting s rx tx], [], s.uniIdx + 1, s.gaussIdx + 1, by simp,
        by simp, by simp [newMeeting]⟩
    · exact ⟨[], [newReading s rx tx (pairDist rx tx)], s.uniIdx, s.gaussIdx,
        by simp [newReading], by simp [newReading], by simp⟩
    · exact ⟨[], [newReading s rx tx (pairDist rx tx)], s.uniIdx + 1, s.gaussIdx,
        by simp [newReading], by simp [newReading], by simp⟩
    · exact ⟨[newMeeting s rx tx], [newReading s rx tx (pairDist rx tx)],
        s.uniIdx + 1, s.gaussIdx + 1, by simp [newReading, newMeeting],
        by simp [newReading], by simp [newMeeting]⟩
  · exact ⟨[], [], s.uniIdx, s.gaussIdx, by simp, by simp, by simp⟩

theorem newMeeting_participants (s : Simulation) (rx tx : Actor) :
    (newMeeting s rx tx).participants = [rx.id, tx.id] := rfl

theorem newMeeting_start (s : Simulation) (rx tx : Actor) :
    (newMeeting s rx tx).start = s.time := rfl

theorem innerLoop_shape (l : List Actor) (rx : Actor) (s : Simulation) :
    ∃ ms rs u g, innerLoop l rx s =
        { s with meetings := s.meetings ++ ms, readings := s.readings ++ rs,
                 uniIdx := u, gaussIdx := g } ∧
      (∀ r ∈ rs, r.idRx = rx.id ∧ ∃ b ∈ l, r.idTx = b.id) ∧
      (∀ m ∈ ms, ∃ b ∈ l, m.participants = [rx.id, b.id]) := by
  induction l generalizing s with
  | nil => exact ⟨[], [], s.uniIdx, s.gaussIdx, by simp [innerLoop], by simp, by simp⟩
  | cons b l ih =>
    obtain ⟨ms1, rs1, u1, g1, h1, hr1, hm1⟩ := pairVisit_shape s rx b
    obtain ⟨ms2, rs2, u2, g2, h2, hr2, hm2⟩ := ih (pairVisit s rx b)
    refine ⟨ms1 ++ ms2, rs1 ++ rs2, u2, g2, ?_, ?_, ?_⟩
    · show innerLoop l rx (pairVisit s rx b) = _
      rw [h2, h1]
      simp
    · intro r hr
      rcases List.mem_append.1 hr with h | h
      · exact ⟨(hr1 r h).1, b, List.mem_cons_self b l, (hr1 r h).2⟩
      · obtain ⟨heq, b', hb', htx⟩ := hr2 r h
        exact ⟨heq, b', List.mem_cons_of_mem _ hb', htx⟩
    · intro m hm
      rcases List.mem_append.1 hm with h | h
      · exact ⟨b, List.mem_cons_self b l, hm1 m h⟩
      · obtain ⟨b', hb', hp⟩ := hm2 m h
        exact ⟨b', List.mem_cons_of_mem _ hb', hp⟩

theorem outerFold_shape (l : List Actor) : ∀ (l2 : List Actor) (s : Simulation),
    ∃ ms rs u g, l2.foldl (fun acc rx => innerLoop l rx acc) s =
        { s with meetings := s.meetings ++ ms, readings := s.readings ++ rs,
                 uniIdx := u, gaussIdx := g } ∧
      (∀ r ∈ rs, (∃ a ∈ l2, r.idRx = a.id) ∧ ∃ b ∈ l, r.idTx = b.id) ∧
      (∀ m ∈ ms, ∃ a ∈ l2, ∃ b ∈ l, m.participants = [a.id, b.id]) := by
  intro l2
  induction l2 with
  | nil => exact fun s => ⟨[], [], s.uniIdx, s.gaussIdx, by simp, by simp, by simp⟩
  | cons a l2 ih =>
    intro s
    obtain ⟨ms1, rs1, u1, g1, h1, hr1, hm1⟩ := innerLoop_shape l a s
    obtain ⟨ms2, rs2, u2, g2, h2, hr2, hm2⟩ := ih (innerLoop l a s)
    refine ⟨ms1 ++ ms2, rs1 ++ rs2, u2, g2, ?_, ?_, ?_⟩
    · show List.foldl _ (innerLoop l a s) l2 = _
      rw [h2, h1]
      simp
    · intro r hr
      rcases List.mem_append.1 hr with h | h
      · exact ⟨⟨a, List.mem_cons_self a l2, (hr1 r h).1⟩, (hr1 r h).2⟩
      · obtain ⟨⟨a', ha', hrx⟩, htx⟩ := hr2 r h
        exact ⟨⟨a', List.mem_cons_of_mem _ ha', hrx⟩, htx⟩
    · intro m hm
      rcases List.mem_append.1 hm with h | h
      · obtain ⟨b, hb, hp⟩ := hm1 m h
        exact ⟨a, List.mem_cons_self a l2, b, hb, hp⟩
      · obtain ⟨a', ha', b, hb, hp⟩ := hm2 m h
        exact ⟨a', List.mem_cons_of_mem _ ha', b, hb, hp⟩

theorem interactionPass_shape (s : Simulation) :
    ∃ ms rs u g, interactionPass s =
        { s with meetings := s.meetings ++ ms, readings := s.readings ++ rs,
                 uniIdx := u, gaussIdx := g } ∧
      (∀ r ∈ rs, (∃ a ∈ s.actors, r.idRx = a.id) ∧ ∃ b ∈ s.actors, r.idTx = b.id) ∧
      (∀ m ∈ ms, ∃ a ∈ s.actors, ∃ b ∈ s.actors, m.participants = [a.id, b.id]) :=
  outerFold_shape s.actors s.actors s

/-! ### The meet-once invariant -/

theorem readingPhase_meetings (s : Simulation) (rx tx : Actor) (range : ℝ) :
    (readingPhase s rx tx range).meetings = s.meetings := by
  unfold readingPhase
  split <;> rfl

theorem meetingPhase_meetOnce (s : Simulation) (rx tx : Actor) (range : ℝ)
    (h : MeetOnce s) : MeetOnce (meetingPhase s rx tx range) := by
  unfold meetingPhase
  split
  · split
    · exact h
    · next heq =>
      split
      · split
        · unfold MeetOnce at h ⊢
          simp only [List.pairwise_append]
          refine ⟨h, List.pairwise_singleton _ _, ?_⟩
          intro m1 hm1 m2 hm2
          simp only [List.mem_singleton] at hm2
          subst hm2
          have hfind := List.find?_eq_none.mp heq m1 hm1
          simp only [decide_eq_true_eq] at hfind
          rw [newMeeting_participants]
          exact hfind
        · exact h
      · exact h
  · exact h

theorem pairVisit_meetOnce (s : Simulation) (rx tx : Actor)
    (h : MeetOnce s) : MeetOnce (pairVisit s rx tx) := by
  unfold pairVisit
  split
  · unfold MeetOnce
    rw [readingPhase_meetings]
    exact meetingPhase_meetOnce s rx tx (pairDist rx tx) h
  · exact h

theorem innerLoop_meetOnce (l : List Actor) (rx : Actor) :
    ∀ s : Simulation, MeetOnce s → MeetOnce (innerLoop l rx s) := by
  induction l with
  | nil => exact fun s h => h
  | cons b l ih =>
    intro s h
    exact ih (pairVisit s rx b) (pairVisit_meetOnce s rx b h)

theorem outerFold_meetOnce (l : List Actor) : ∀ (l2 : List Actor) (s : Simulation),
    MeetOnce s → MeetOnce (l2.foldl (fun acc rx => innerLoop l rx acc) s) := by
  intro l2
  induction l2 with
  | nil => exact fun s h => h
  | cons a l2 ih =>
    intro s h
    exact ih (innerLoop l a s) (innerLoop_meetOnce l a s h)

theorem interactionPass_meetOnce (s : Simulation) (h : MeetOnce s) :
    MeetOnce (interactionPass s) :=
  outerFold_meetOnce s.actors s.actors s h

theorem step_meetOnce (s : Simulation) (dt : ℝ) (h : MeetOnce s) :
    MeetOnce (s.step dt) :=
  interactionPass_meetOnce _ h

theorem reachable_meetOnce {s : Simulation} (h : Reachable s) : MeetOnce s := by
  induction h with
  | init => exact List.Pairwise.nil
  | step dt _ ih => exact step_meetOnce _ dt ih
  | addActor a _ ih => exact ih

theorem sqrt_nine : Real.sqrt 9 = 3 := by
  rw [show (9 : ℝ) = 3 ^ 2 by norm_num, Real.sqrt_sq (by norm_num : (0:ℝ) ≤ 3)]

theorem mem_actorIds {a : Actor} {l : List Actor} (h : a ∈ l) : a.id ∈ actorIds l :=
  List.mem_map_of_mem Actor.id h

theorem readingPhase_uniIdx (s : Simulation) (rx tx : Actor) (range : ℝ) :
    (readingPhase s rx tx range).uniIdx = s.uniIdx := by
  unfold readingPhase
  split <;> rfl

theorem readingPhase_gaussIdx (s : Simulation) (rx tx : Actor) (range : ℝ) :
    (readingPhase s rx tx range).gaussIdx = s.gaussIdx := by
  unfold readingPhase
  split <;> rfl

theorem meetingPhase_readings (s : Simulation) (rx tx : Actor) (range : ℝ) :
    (meetingPhase s rx tx range).readings = s.readings := by
  rcases meetingPhase_cases s rx tx range with h | h | h <;> rw [h]

theorem meetingPhase_wavelength (s : Simulation) (rx tx : Actor) (range : ℝ) :
    (meetingPhase s rx tx range).wavelength = s.wavelength := by
  rcases meetingPhase_cases s rx tx range with h | h | h <;> rw [h]

theorem meetingPhase_maxRange (s : Simulation) (rx tx : Actor) (range : ℝ) :
    (meetingPhase s rx tx range).maxRange = s.maxRange := by
  rcases meetingPhase_cases s rx tx range with h | h | h <;> rw [h]

theorem interactionPass_actors (s : Simulation) :
    (interactionPass s).actors = s.actors := by
  obtain ⟨ms, rs, u, g, h, -, -⟩ := interactionPass_shape s
  rw [h]

theorem meetingPhase_of_guards (s : Simulation) (rx tx : Actor) (range : ℝ)
    (h1 : s.meetingDurationMean > 0) (h2 : range ≤ s.meetingMaxRange)
    (h3 : s.getMeeting [rx.id, tx.id] = none)
    (h4 : range ≤ s.meetingDistanceMean + 2 * s.meetingDistanceSd) :
    meetingPhase s rx tx range =
      if s.uni s.uniIdx * s.meetingChance >
          s.normCDF range s.meetingDistanceMean s.meetingDistanceSd then
        { s with uniIdx := s.uniIdx + 1, gaussIdx := s.gaussIdx + 1,
                 meetings := s.meetings ++ [newMeeting s rx tx] }
      else { s with uniIdx := s.uniIdx + 1 } := by
  unfold meetingPhase
  rw [if_pos ⟨h1, h2⟩]
  split
  · next heq => rw [h3] at heq; exact Option.noConfusion heq
  · rw [if_pos h4]

theorem meetingPhase_of_skip (s : Simulation) (rx tx : Actor) (range : ℝ)
    (h : ¬ s.meetingDurationMean > 0 ∨ ¬ range ≤ s.meetingMaxRange ∨
      (∃ m, s.getMeeting [rx.id, tx.id] = some m) ∨
      ¬ range ≤ s.meetingDistanceMean + 2 * s.meetingDistanceSd) :
    meetingPhase s rx tx range = s := by
  unfold meetingPhase
  split
  · next hg =>
    split
    · rfl
    · next heq =>
      rcases h with h | h | ⟨m, hm⟩ | h
      · exact absurd hg.1 h
      · exact absurd hg.2 h
      · rw [heq] at hm; exact Option.noConfusion hm
      · rw [if_neg h]
  · rfl

theorem pyClamp_eq_max (t g : ℝ) (ht : 0 ≤ t) :
    (if ((pyInt (t + g) : ℤ) : ℝ) < t + 1 then t + 1 else ((pyInt (t + g) : ℤ) : ℝ)) =
      max ((⌊t + g⌋ : ℤ) : ℝ) (t + 1) := by
  by_cases hx : 0 ≤ t + g
  · rw [pyInt, if_pos hx]
    by_cases hlt : ((⌊t + g⌋ : ℤ) : ℝ) < t + 1
    · rw [if_pos hlt, max_eq_right hlt.le]
    · rw [if_neg hlt, max_eq_left (not_lt.mp hlt)]
  · rw [pyInt, if_neg hx]
    have hc : (⌈t + g⌉ : ℤ) ≤ 0 := Int.ceil_le.mpr (by push_cast; linarith)
    have hcr : ((⌈t + g⌉ : ℤ) : ℝ) ≤ 0 := by exact_mod_cast hc
    have hfr : ((⌊t + g⌋ : ℤ) : ℝ) ≤ 0 := by
      have := Int.floor_le_ceil (t + g)
      have : ((⌊t + g⌋ : ℤ) : ℝ) ≤ ((⌈t + g⌉ : ℤ) : ℝ) := by exact_mod_cast this
      linarith
    rw [if_pos (by linarith), max_eq_right (by linarith)]

theorem newMeeting_endT (s : Simulation) (rx tx : Actor) (ht : 0 ≤ s.time) :
    (newMeeting s rx tx).endT =
      max ((⌊s.time + s.gauss s.gaussIdx⌋ : ℤ) : ℝ) (s.time + 1) :=
  pyClamp_eq_max s.time (s.gauss s.gaussIdx) ht

theorem newMeeting_endT_ge (s : Simulation) (rx tx : Actor) :
    (newMeeting s rx tx).endT ≥ s.time + 1 := by
  have h : (newMeeting s rx tx).endT =
      if ((pyInt (s.time + s.gauss s.gaussIdx) : ℤ) : ℝ) < s.time + 1 then s.time + 1
      else ((pyInt (s.time + s.gauss s.gaussIdx) : ℤ) : ℝ) := rfl
  rw [h]
  split
  · exact le_refl _
  · next hge => exact not_lt.mp hge

theorem pairwise_ne_filter_le_one :
    ∀ (ms : List Meeting) (p : List ℕ),
      ms.Pairwise (fun m1 m2 => pySorted m1.participants ≠ pySorted m2.participants) →
      (ms.filter fun m => pySorted m.participants = pySorted p).length ≤ 1 := by
  intro ms p h
  induction ms with
  | nil => simp
  | cons m ms ih =>
    obtain ⟨h1, h2⟩ := List.pairwise_cons.mp h
    rw [List.filter_cons]
    by_cases hk : pySorted m.participants = pySorted p
    · have hnil : (ms.filter fun m' => pySorted m'.participants = pySorted p) = [] := by
        rw [List.filter_eq_nil_iff]
        intro m' hm'
        simp only [decide_eq_true_eq]
        intro hk'
        exact h1 m' hm' (hk.trans hk'.symm)
      simp [hk, hnil]
    · simp [hk, ih h2]

theorem movementPass_ids (s : Simulation) (dt : ℝ) (i : ℕ)
    (h : i ∈ actorIds (movementPass s dt).actors) : i ∈ actorIds s.actors := by
  unfold actorIds at h ⊢
  unfold movementPass at h
  simp only [List.mem_map, List.mem_filter] at h
  obtain ⟨p, ⟨q, ⟨⟨b, hb, hbq⟩, hq2⟩, hqp⟩, hpi⟩ := h
  refine List.mem_map.mpr ⟨b, hb, ?_⟩
  rw [← hpi, ← hqp, ← hbq, moveActor_fst_id]

theorem interactionPass_absent (s : Simulation) (i : ℕ) (h : i ∉ actorIds s.actors) :
    (∀ r ∈ (interactionPass s).readings, r ∉ s.readings → r.idRx ≠ i ∧ r.idTx ≠ i) ∧
    (∀ m ∈ (interactionPass s).meetings, m ∉ s.meetings → i ∉ m.participants) := by
  obtain ⟨ms, rs, u, g, heq, hrs, hms⟩ := interactionPass_shape s
  constructor
  · intro r hr hrnot
    rw [heq] at hr
    have hmem : r ∈ rs := by
      rcases List.mem_append.1 hr with h' | h'
      · exact absurd h' hrnot
      · exact h'
    obtain ⟨⟨a, ha, hrx⟩, b, hb, htx⟩ := hrs r hmem
    constructor
    · rw [hrx]
      intro hEq
      exact h (hEq ▸ mem_actorIds ha)
    · rw [htx]
      intro hEq
      exact h (hEq ▸ mem_actorIds hb)
  · intro m hm hmnot
    rw [heq] at hm
    have hmem : m ∈ ms := by
      rcases List.mem_append.1 hm with h' | h'
      · exact absurd h' hmnot
      · exact h'
    obtain ⟨a, ha, b, hb, hp⟩ := hms m hmem
    rw [hp]
    intro hEq
    rcases List.mem_pair.mp hEq with h' | h'
    · exact h (h' ▸ mem_actorIds ha)
    · exact h (h' ▸ mem_actorIds hb)

theorem step_absent (s : Simulation) (dt : ℝ) (i : ℕ) (h : i ∉ actorIds s.actors) :
    i ∉ actorIds (s.step dt).actors ∧
    (∀ r ∈ (s.step dt).readings, r ∉ s.readings → r.idRx ≠ i ∧ r.idTx ≠ i) ∧
    (∀ m ∈ (s.step dt).meetings, m ∉ s.meetings → i ∉ m.participants) := by
  have h2 : i ∉ actorIds (movementPass { s with time := s.time + dt } dt).actors :=
    fun hmem => h (movementPass_ids { s with time := s.time + dt } dt i hmem)
  obtain ⟨hr, hm⟩ :=
    interactionPass_absent (movementPass { s with time := s.time + dt } dt) i h2
  refine ⟨?_, fun r hrm hrn => hr r hrm hrn, fun m hmm hmn => hm m hmm hmn⟩
  intro hmem
  rw [show (s.step dt).actors =
      (movementPass { s with time := s.time + dt } dt).actors from
    interactionPass_actors _] at hmem
  exact h2 hmem

/-! ### The claims -/

/-- Claim C1, refuted on the code: the claim says every unordered pair of
live actors is visited exactly once per tick with at most one Reading
(receiver = first-in-order actor) and the reverse direction never tested or
logged in the same tick.  In the code, `enumerate(self.actors,
start=rxIdx+1)` only offsets the enumeration counter and does not skip the
first `rxIdx+1` actors, so each unordered pair is visited in both
directions: with two stationary in-range actors 1 and 2, a single tick
appends a reading with receiver 1 and also the reverse reading with
receiver 2. -/
theorem c1_pair_visited_both_directions :
    ((demoSim.step 1).readings.map fun r => (r.idRx, r.idTx)) = [(1, 2), (2, 1)] := by
  norm_num [Simulation.step, movementPass, interactionPass, outerLoop, innerLoop,
    pairVisit, readingPhase, meetingPhase, newReading, pairDist, moveActor,
    Actor.updatePosition, Simulation.isInMeeting, demoSim, mkSimulation,
    demoActorA, demoActorB, lightSpeed, sqrt_nine]

/-- Claim C2: for a visited pair with `meetingDurationMean > 0`, distance
within `meetingMaxRange`, no prior meeting for the unordered pair, and
distance within `meetingDistanceMean + 2·meetingDistanceSd`, a Meeting is
appended iff the uniform draw `r` satisfies `r · meetingChance > cdf`
(consuming exactly one uniform draw, and a duration sample only on
formation); under any skip condition no draw is consumed and no meeting is
appended for the pair by that visit. -/
theorem c2_formation_formula (s : Simulation) (rx tx : Actor) (hid : rx.id ≠ tx.id) :
    ((s.meetingDurationMean > 0 ∧ pairDist rx tx ≤ s.meetingMaxRange ∧
      s.getMeeting [rx.id, tx.id] = none ∧
      pairDist rx tx ≤ s.meetingDistanceMean + 2 * s.meetingDistanceSd) →
      (((pairVisit s rx tx).meetings = s.meetings ++ [newMeeting s rx tx] ↔
        s.uni s.uniIdx * s.meetingChance >
          s.normCDF (pairDist rx tx) s.meetingDistanceMean s.meetingDistanceSd) ∧
       (pairVisit s rx tx).uniIdx = s.uniIdx + 1 ∧
       (¬ s.uni s.uniIdx * s.meetingChance >
          s.normCDF (pairDist rx tx) s.meetingDistanceMean s.meetingDistanceSd →
        (pairVisit s rx tx).meetings = s.meetings ∧
        (pairVisit s rx tx).gaussIdx = s.gaussIdx))) ∧
    ((¬ s.meetingDurationMean > 0 ∨ ¬ pairDist rx tx ≤ s.meetingMaxRange ∨
      (∃ m, s.getMeeting [rx.id, tx.id] = some m) ∨
      ¬ pairDist rx tx ≤ s.meetingDistanceMean + 2 * s.meetingDistanceSd) →
      (pairVisit s rx tx).uniIdx = s.uniIdx ∧
      (pairVisit s rx tx).gaussIdx = s.gaussIdx ∧
      (pairVisit s rx tx).meetings = s.meetings) := by
  have hproj_m : (pairVisit s rx tx).meetings =
      (meetingPhase s rx tx (pairDist rx tx)).meetings := by
    unfold pairVisit
    rw [if_pos hid]
    exact readingPhase_meetings _ _ _ _
  have hproj_u : (pairVisit s rx tx).uniIdx =
      (meetingPhase s rx tx (pairDist rx tx)).uniIdx := by
    unfold pairVisit
    rw [if_pos hid]
    exact readingPhase_uniIdx _ _ _ _
  have hproj_g : (pairVisit s rx tx).gaussIdx =
      (meetingPhase s rx tx (pairDist rx tx)).gaussIdx := by
    unfold pairVisit
    rw [if_pos hid]
    exact readingPhase_gaussIdx _ _ _ _
  constructor
  · rintro ⟨h1, h2, h3, h4⟩
    have hg := meetingPhase_of_guards s rx tx (pairDist rx tx) h1 h2 h3 h4
    by_cases hd : s.uni s.uniIdx * s.meetingChance >
        s.normCDF (pairDist rx tx) s.meetingDistanceMean s.meetingDistanceSd
    · rw [if_pos hd] at hg
      exact ⟨by rw [hproj_m, hg]; exact iff_of_true rfl hd,
        by rw [hproj_u, hg], fun hnd => absurd hd hnd⟩
    · rw [if_neg hd] at hg
      refine ⟨?_, by rw [hproj_u, hg], fun _ => ⟨by rw [hproj_m, hg], by rw [hproj_g, hg]⟩⟩
      rw [hproj_m, hg]
      constructor
      · intro hfalse
        have hlen := congrArg List.length hfalse
        simp at hlen
      · intro h'
        exact absurd h' hd
  · intro h
    have hg := meetingPhase_of_skip s rx tx (pairDist rx tx) h
    exact ⟨by rw [hproj_u, hg], by rw [hproj_g, hg], by rw [hproj_m, hg]⟩

/-- Witness for C2: the meeting-enabled demo simulation with its two actors
at distance 0 satisfies every guard, and the draw 1/2 · 1 exceeds the
modelled cdf value 0, so the iff yields formation. -/
theorem c2_formation_formula_witness :
    demoMeetSim.meetingDurationMean > 0 ∧
    ((pairVisit demoMeetSim demoActorA demoActorC).meetings =
      demoMeetSim.meetings ++ [newMeeting demoMeetSim demoActorA demoActorC] ↔
      demoMeetSim.uni demoMeetSim.uniIdx * demoMeetSim.meetingChance >
        demoMeetSim.normCDF (pairDist demoActorA demoActorC)
          demoMeetSim.meetingDistanceMean demoMeetSim.meetingDistanceSd) := by
  refine ⟨by norm_num [demoMeetSim, mkSimulation], ?_⟩
  refine ((c2_formation_formula demoMeetSim demoActorA demoActorC
    (by norm_num [demoActorA, demoActorC])).1 ⟨?_, ?_, ?_, ?_⟩).1
  · norm_num [demoMeetSim, mkSimulation]
  · norm_num [pairDist, demoActorA, demoActorC, demoMeetSim, mkSimulation]
  · rfl
  · norm_num [pairDist, demoActorA, demoActorC, demoMeetSim, mkSimulation]

/-- Claim C3: in every reachable engine state, at most one Meeting in the
log has a given unordered participant pair (so once a pair's meeting is
appended, no later step can append a second one for that pair). -/
theorem c3_meet_once_invariant (s : Simulation) (h : Reachable s) (a b : ℕ) :
    (s.meetings.filter fun m =>
      pySorted m.participants = pySorted [a, b]).length ≤ 1 :=
  pairwise_ne_filter_le_one s.meetings [a, b] (reachable_meetOnce h)

/-- Witness for C3 at a concrete reachable state: the demo simulation after
one step. -/
theorem c3_meet_once_invariant_witness :
    (((demoSim.step 1).meetings.filter fun m =>
      pySorted m.participants = pySorted [1, 2]).length ≤ 1) := by
  apply c3_meet_once_invariant
  exact Reachable.step 1 (by unfold demoSim; apply Reachable.init)

/-- Claim C4: after `setVelocity(θ, s)` and `updatePosition(t)`, the x
position changes by exactly `s·sin(θ)·t` and the y position by
`s·cos(θ)·t` (the north-equals-0-radians axis mapping), and the Euclidean
displacement magnitude is `s·t`. -/
theorem c4_velocity_displacement (a : Actor) (θ sp t : ℝ) (hs : 0 ≤ sp) (ht : 0 ≤ t) :
    ((a.setVelocity θ sp).updatePosition t).x = a.x + sp * Real.sin θ * t ∧
    ((a.setVelocity θ sp).updatePosition t).y = a.y + sp * Real.cos θ * t ∧
    Real.sqrt ((((a.setVelocity θ sp).updatePosition t).x - a.x) ^ 2 +
      (((a.setVelocity θ sp).updatePosition t).y - a.y) ^ 2) = sp * t := by
  have hx : ((a.setVelocity θ sp).updatePosition t).x = a.x + sp * Real.sin θ * t := by
    simp only [Actor.setVelocity, Actor.updatePosition]
    ring
  have hy : ((a.setVelocity θ sp).updatePosition t).y = a.y + sp * Real.cos θ * t := by
    simp only [Actor.setVelocity, Actor.updatePosition]
    ring
  refine ⟨hx, hy, ?_⟩
  rw [hx, hy]
  have hsum : (a.x + sp * Real.sin θ * t - a.x) ^ 2 +
      (a.y + sp * Real.cos θ * t - a.y) ^ 2 = (sp * t) ^ 2 := by
    have h := Real.sin_sq_add_cos_sq θ
    nlinarith [h]
  rw [hsum, Real.sqrt_sq (by positivity)]

/-- Witness for C4 at angle 0, speed 1, elapsed time 1, starting at the
origin: the actor ends at (0, 1), a displacement of magnitude 1. -/
theorem c4_velocity_displacement_witness :
    ((demoActorA.setVelocity 0 1).updatePosition 1).x = demoActorA.x + 1 * Real.sin 0 * 1 ∧
    ((demoActorA.setVelocity 0 1).updatePosition 1).y = demoActorA.y + 1 * Real.cos 0 * 1 ∧
    Real.sqrt ((((demoActorA.setVelocity 0 1).updatePosition 1).x - demoActorA.x) ^ 2 +
      (((demoActorA.setVelocity 0 1).updatePosition 1).y - demoActorA.y) ^ 2) = 1 * 1 :=
  c4_velocity_displacement demoActorA 0 1 1 (by norm_num) (by norm_num)

/-- Claim C5: for positive distance, `powerReceiver` returns exactly
`gainRx + otherPowerTransmitter + otherGainTransmitter +
20·log10(wavelength / (4π·distance))`, and it depends on the receiving
actor only through its `gainRx` (pure function of its inputs). -/
theorem c5_friis_formula (a : Actor) (wavelength distance pTx gTx : ℝ)
    (hd : 0 < distance) :
    a.powerReceiver wavelength distance pTx gTx =
      a.gainRx + pTx + gTx +
        20 * Real.logb 10 (wavelength / (4 * Real.pi * distance)) ∧
    ∀ a' : Actor, a'.gainRx = a.gainRx →
      a'.powerReceiver wavelength distance pTx gTx =
        a.powerReceiver wavelength distance pTx gTx :=
  ⟨rfl, fun a' h => by unfold Actor.powerReceiver; rw [h]⟩

/-- Witness for C5 at wavelength 1, distance 1, transmitter power and gain 0. -/
theorem c5_friis_formula_witness :
    demoActorA.powerReceiver 1 1 0 0 =
      demoActorA.gainRx + 0 + 0 + 20 * Real.logb 10 (1 / (4 * Real.pi * 1)) :=
  (c5_friis_formula demoActorA 1 1 0 0 (by norm_num)).1

/-- Claim C6: whenever a pair visit appends a Meeting (with the clock
nonnegative, as it is whenever elapsed times are nonnegative), the meeting
has participants equal to the tested pair, start equal to the current
(already advanced) clock, end equal to the floored sample added to the
clock clamped up to clock + 1, and hence end ≥ start + 1 and duration ≥ 1. -/
theorem c6_meeting_fields (s : Simulation) (rx tx : Actor) (ht : 0 ≤ s.time)
    (happ : (pairVisit s rx tx).meetings ≠ s.meetings) :
    (pairVisit s rx tx).meetings = s.meetings ++ [newMeeting s rx tx] ∧
    (newMeeting s rx tx).participants = [rx.id, tx.id] ∧
    (newMeeting s rx tx).start = s.time ∧
    (newMeeting s rx tx).endT =
      max ((⌊s.time + s.gauss s.gaussIdx⌋ : ℤ) : ℝ) (s.time + 1) ∧
    (newMeeting s rx tx).endT ≥ (newMeeting s rx tx).start + 1 ∧
    (newMeeting s rx tx).duration ≥ 1 := by
  have hfirst : (pairVisit s rx tx).meetings = s.meetings ++ [newMeeting s rx tx] := by
    unfold pairVisit at happ ⊢
    by_cases hid : rx.id ≠ tx.id
    · rw [if_pos hid] at happ ⊢
      rw [readingPhase_meetings] at happ ⊢
      rcases meetingPhase_cases s rx tx (pairDist rx tx) with h | h | h
      · rw [h] at happ
        exact absurd rfl happ
      · rw [h] at happ
        exact absurd rfl happ
      · rw [h]
    · rw [if_neg hid] at happ
      exact absurd rfl happ
  have hge := newMeeting_endT_ge s rx tx
  refine ⟨hfirst, rfl, rfl, newMeeting_endT s rx tx ht, hge, ?_⟩
  show (newMeeting s rx tx).endT - (newMeeting s rx tx).start ≥ 1
  have hstart : (newMeeting s rx tx).start = s.time := rfl
  rw [hstart]
  linarith

/-- Witness for C6: in the meeting-enabled demo simulation the pair visit
forms a meeting, whose duration is at least one tick. -/
theorem c6_meeting_fields_witness :
    (pairVisit demoMeetSim demoActorA demoActorC).meetings ≠ demoMeetSim.meetings ∧
    (pairVisit demoMeetSim demoActorA demoActorC).meetings =
      demoMeetSim.meetings ++ [newMeeting demoMeetSim demoActorA demoActorC] ∧
    (newMeeting demoMeetSim demoActorA demoActorC).duration ≥ 1 := by
  have happ : (pairVisit demoMeetSim demoActorA demoActorC).meetings ≠
      demoMeetSim.meetings := by
    norm_num [pairVisit, readingPhase, meetingPhase, Simulation.getMeeting, pairDist,
      demoMeetSim, mkSimulation, demoActorA, demoActorC, lightSpeed]
  have h := c6_meeting_fields demoMeetSim demoActorA demoActorC
    (by norm_num [demoMeetSim, mkSimulation]) happ
  exact ⟨happ, h.1, h.2.2.2.2.2⟩

/-- Claim C7: an included actor, not in an active meeting at the advanced
clock, whose updated position lies strictly outside the bounding box, has
its `included` flag set to false and is dropped in that same step; it is
absent from the live collection after the step, no reading or meeting
appended in that step mentions it, and (having left the live collection)
no later step ever re-admits it or mentions it in new readings or
meetings. -/
theorem c7_out_of_bounds_excluded (s : Simulation) (dt : ℝ) (a : Actor)
    (ha : a ∈ s.actors) (hnodup : (actorIds s.actors).Nodup)
    (hinc : a.included = true)
    (hnm : ¬ s.isInMeeting a.id (s.time + dt))
    (hout : (a.updatePosition dt).x < s.minX ∨ (a.updatePosition dt).x > s.maxX ∨
      (a.updatePosition dt).y < s.minY ∨ (a.updatePosition dt).y > s.maxY) :
    moveActor { s with time := s.time + dt } dt a =
      ({ a.updatePosition dt with included := false }, false) ∧
    a.id ∉ actorIds (s.step dt).actors ∧
    (∀ r ∈ (s.step dt).readings, r ∉ s.readings → r.idRx ≠ a.id ∧ r.idTx ≠ a.id) ∧
    (∀ m ∈ (s.step dt).meetings, m ∉ s.meetings → a.id ∉ m.participants) ∧
    (∀ (s' : Simulation) (dt' : ℝ), a.id ∉ actorIds s'.actors →
      a.id ∉ actorIds (s'.step dt').actors ∧
      (∀ r ∈ (s'.step dt').readings, r ∉ s'.readings → r.idRx ≠ a.id ∧ r.idTx ≠ a.id) ∧
      (∀ m ∈ (s'.step dt').meetings, m ∉ s'.meetings → a.id ∉ m.participants)) := by
  have hnm' : ¬ ({ s with time := s.time + dt } : Simulation).isInMeeting a.id
      ({ s with time := s.time + dt } : Simulation).time := hnm
  have hout' : (a.updatePosition dt).x < ({ s with time := s.time + dt } : Simulation).minX ∨
      (a.updatePosition dt).x > ({ s with time := s.time + dt } : Simulation).maxX ∨
      (a.updatePosition dt).y < ({ s with time := s.time + dt } : Simulation).minY ∨
      (a.updatePosition dt).y > ({ s with time := s.time + dt } : Simulation).maxY := hout
  have hmove : moveActor { s with time := s.time + dt } dt a =
      ({ a.updatePosition dt with included := false }, false) := by
    unfold moveActor
    rw [hinc, if_pos rfl, if_neg hnm', if_pos hout']
  have hids : a.id ∉ actorIds (movementPass { s with time := s.time + dt } dt).actors := by
    intro hmem
    unfold actorIds at hmem
    unfold movementPass at hmem
    simp only [List.mem_map, List.mem_filter] at hmem
    obtain ⟨p, ⟨q, ⟨⟨b, hb, hbq⟩, hq2⟩, hqp⟩, hpi⟩ := hmem
    have hb' : b ∈ s.actors := hb
    have hbid : b.id = a.id := by
      rw [← moveActor_fst_id { s with time := s.time + dt } dt b, hbq, hqp, hpi]
    have hba : b = a := List.inj_on_of_nodup_map hnodup hb' ha hbid
    rw [hba, hmove] at hbq
    rw [← hbq] at hq2
    simp at hq2
  obtain ⟨hr7, hm7⟩ :=
    interactionPass_absent (movementPass { s with time := s.time + dt } dt) a.id hids
  refine ⟨hmove, ?_, fun r hr hnr => hr7 r hr hnr, fun m hm hnm2 => hm7 m hm hnm2,
    fun s' dt' h' => step_absent s' dt' a.id h'⟩
  intro hmem
  rw [show (s.step dt).actors =
      (movementPass { s with time := s.time + dt } dt).actors from
    interactionPass_actors _] at hmem
  exact hids hmem

/-- Witness for C7: actor 3 at (199, 0) moving 5 m/s in x leaves the
half-width-200 box after a one-second step and is excluded. -/
theorem c7_out_of_bounds_excluded_witness :
    moveActor { demoOutSim with time := demoOutSim.time + 1 } 1 demoActorD =
      ({ demoActorD.updatePosition 1 with included := false }, false) ∧
    demoActorD.id ∉ actorIds (demoOutSim.step 1).actors := by
  have h := c7_out_of_bounds_excluded demoOutSim 1 demoActorD
    (by simp [demoOutSim, mkSimulation])
    (by simp [actorIds, demoOutSim, mkSimulation])
    rfl
    (by simp [Simulation.isInMeeting, demoOutSim, mkSimulation])
    (by norm_num [Actor.updatePosition, demoActorD, demoOutSim, mkSimulation])
  exact ⟨h.1, h.2.1⟩

/-- Claim C8: a live actor that participates in a meeting active at the
advanced clock is kept unmoved by the movement pass — the identical actor
value (same position and included flag) is retained in the live collection
after the step. -/
theorem c8_meeting_freezes_actor (s : Simulation) (dt : ℝ) (a : Actor)
    (ha : a ∈ s.actors) (hinc : a.included = true)
    (hm : s.isInMeeting a.id (s.time + dt)) :
    moveActor { s with time := s.time + dt } dt a = (a, true) ∧
    a ∈ (s.step dt).actors := by
  have hm' : ({ s with time := s.time + dt } : Simulation).isInMeeting a.id
      ({ s with time := s.time + dt } : Simulation).time := hm
  have hmove : moveActor { s with time := s.time + dt } dt a = (a, true) := by
    unfold moveActor
    rw [hinc, if_pos rfl, if_pos hm']
  refine ⟨hmove, ?_⟩
  rw [show (s.step dt).actors =
      (movementPass { s with time := s.time + dt } dt).actors from
    interactionPass_actors _]
  unfold movementPass
  simp only [List.mem_map, List.mem_filter]
  exact ⟨(a, true), ⟨⟨a, ha, hmove⟩, rfl⟩, rfl⟩

/-- Witness for C8: actor 1 of the demo simulation that already holds a
meeting of actors 1 and 2 spanning ticks 0 to 10 stays frozen in place
through the step to tick 1. -/
theorem c8_meeting_freezes_actor_witness :
    moveActor { meetSimW with time := meetSimW.time + 1 } 1 demoActorA =
      (demoActorA, true) ∧
    demoActorA ∈ (meetSimW.step 1).actors := by
  apply c8_meeting_freezes_actor
  · simp [meetSimW, demoMeetSim, mkSimulation]
  · rfl
  · refine ⟨⟨0, 10, [1, 2]⟩, by simp [meetSimW], ?_, ?_⟩
    · simp [Meeting.hasParticipant, demoActorA]
    · constructor <;> norm_num [meetSimW, demoMeetSim, mkSimulation]

/-- Claim C9: holding wavelength, receiver gain and transmitter parameters
fixed, `powerReceiver` is non-increasing in distance on distances at least
the (positive) wavelength. -/
theorem c9_power_monotone (a : Actor) (wavelength d1 d2 pTx gTx : ℝ)
    (hwl : 0 < wavelength) (h1 : wavelength ≤ d1) (h2 : d1 ≤ d2) :
    a.powerReceiver wavelength d2 pTx gTx ≤ a.powerReceiver wavelength d1 pTx gTx := by
  have hd1 : 0 < d1 := lt_of_lt_of_le hwl h1
  have hd2 : 0 < d2 := lt_of_lt_of_le hd1 h2
  have hop : 0 < wavelength / (4 * Real.pi * d2) := by positivity
  have hle : wavelength / (4 * Real.pi * d2) ≤ wavelength / (4 * Real.pi * d1) := by
    gcongr
  have hlog := Real.logb_le_logb_of_le (by norm_num : (1:ℝ) < 10) hop hle
  show a.gainRx + pTx + gTx + 20 * Real.logb 10 (wavelength / (4 * Real.pi * d2)) ≤
    a.gainRx + pTx + gTx + 20 * Real.logb 10 (wavelength / (4 * Real.pi * d1))
  linarith

/-- Witness for C9 with wavelength 1 and distances 2 ≤ 3. -/
theorem c9_power_monotone_witness :
    demoActorA.powerReceiver 1 3 0 0 ≤ demoActorA.powerReceiver 1 2 0 0 :=
  c9_power_monotone demoActorA 1 2 3 0 0 (by norm_num) (by norm_num) (by norm_num)

/-- Claim C10: construction with positive frequency yields a strictly
positive wavelength, and the reading-capture branch only ever evaluates
the received power under its guard `range ≥ wavelength`, so the distance
is positive and the Friis operand `wavelength / (4π·distance)` is strictly
positive — the zero-distance division/log fault is unreachable from the
tick-advance path. -/
theorem c10_reading_guard_safe :
    (∀ (actors : List Actor) (frequency maxEffectRange minX maxX minY maxY
        mdm mds mDm mDs mc mmr : ℝ) (uni gauss : ℕ → ℝ) (cdf : ℝ → ℝ → ℝ → ℝ),
      0 < frequency →
      0 < (mkSimulation actors frequency maxEffectRange minX maxX minY maxY
        mdm mds mDm mDs mc mmr uni gauss cdf).wavelength) ∧
    (∀ (s : Simulation) (rx tx : Actor), 0 < s.wavelength →
      (pairVisit s rx tx).readings ≠ s.readings →
      s.wavelength ≤ pairDist rx tx ∧ 0 < pairDist rx tx ∧
      0 < 4 * Real.pi * pairDist rx tx ∧
      0 < s.wavelength / (4 * Real.pi * pairDist rx tx)) := by
  constructor
  · intro actors frequency maxEffectRange minX maxX minY maxY
      mdm mds mDm mDs mc mmr uni gauss cdf hf
    show 0 < lightSpeed / frequency
    unfold lightSpeed
    positivity
  · intro s rx tx hwl hne
    unfold pairVisit at hne
    by_cases hid : rx.id ≠ tx.id
    · rw [if_pos hid] at hne
      unfold readingPhase at hne
      split at hne
      · next hguard =>
        rw [meetingPhase_wavelength] at hguard
        have hge : s.wavelength ≤ pairDist rx tx := hguard.2
        have hpos : 0 < pairDist rx tx := lt_of_lt_of_le hwl hge
        have h4 : 0 < 4 * Real.pi * pairDist rx tx :=
          mul_pos (mul_pos (by norm_num) Real.pi_pos) hpos
        exact ⟨hge, hpos, h4, div_pos hwl h4⟩
      · rw [meetingPhase_readings] at hne
        exact absurd rfl hne
    · rw [if_neg hid] at hne
      exact absurd rfl hne

/-- Witness for C10: the demo simulation has wavelength 1 > 0 and its pair
visit appends a reading, so the distance 3 is at least the wavelength. -/
theorem c10_reading_guard_safe_witness :
    0 < demoSim.wavelength ∧
    demoSim.wavelength ≤ pairDist demoActorA demoActorB ∧
    0 < pairDist demoActorA demoActorB := by
  have hwl : 0 < demoSim.wavelength := by
    norm_num [demoSim, mkSimulation, lightSpeed]
  have hne : (pairVisit demoSim demoActorA demoActorB).readings ≠ demoSim.readings := by
    norm_num [pairVisit, readingPhase, meetingPhase, newReading, pairDist,
      demoSim, mkSimulation, demoActorA, demoActorB, lightSpeed, sqrt_nine]
  have h := c10_reading_guard_safe.2 demoSim demoActorA demoActorB hwl hne
  exact ⟨hwl, h.1, h.2.1⟩

end ContactSim
